import Mathlib

/-!
Shallow embedding of `checker_date_planka.py`, a Telegram bot that polls the
Planka REST API for cards with due dates and reports them grouped by project
and board.  Pure fragments of the script become Lean functions; each network
read is a value supplied by an explicit environment (`PlankaEnv`); Python
exceptions become `Except PyErr`.  Timestamps are modelled as minutes since
the Unix epoch (`Int`); the configured display timezone is a fixed offset in
minutes; a calendar date is its day number, i.e. the floor division of local
minutes by 1440 (this is what `datetime.astimezone(...).date()` computes for
a fixed-offset zone).  A card's `dueDate` field is modelled as an optional
already-parsed timestamp: present means present, non-null and parseable.
-/

set_option autoImplicit false

/-- Python exceptions that the script can raise or catch: `KeyError` from a
missing dictionary key, `ValueError` from JSON decoding or
`datetime.fromisoformat`, and `requests.RequestException` from transport or
HTTP failures. -/
inductive PyErr where
  | keyError (key : String)
  | valueError
  | requestException
deriving DecidableEq, Repr

/-- Outcome of `requests.get(url).json()`: the HTTP call itself can raise
`requests.RequestException`, the body decode can raise `ValueError`, or a
parsed JSON value is produced. -/
inductive Fetch (α : Type) where
  | transportError
  | decodeError
  | ok (val : α)
deriving DecidableEq, Repr

/-- Re-raise the two failure modes of a fetch as the Python exceptions they
are; used where `get_due_cards` calls `requests.get(...).json()` with no
`try` around it. -/
def Fetch.toExcept {α : Type} : Fetch α → Except PyErr α
  | .transportError => .error .requestException
  | .decodeError => .error .valueError
  | .ok a => .ok a

/-- The whitespace class of Python's `\s` (ASCII part) and of `str.strip`:
space, tab, newline, carriage return, vertical tab, form feed. -/
def isSpace (c : Char) : Bool :=
  c == ' ' || c == '\t' || c == '\n' || c == '\r' || c == '\u000B' || c == '\u000C'

/-- Replace every maximal run of whitespace by a single space, as
`re.sub(r"\s+", " ", text)` does.  The boolean argument records whether the
previous character belonged to a whitespace run (so the run's later
characters are dropped). -/
def collapseWS : Bool → List Char → List Char
  | _, [] => []
  | inRun, c :: cs =>
    if isSpace c then
      if inRun then collapseWS true cs else ' ' :: collapseWS true cs
    else c :: collapseWS false cs

/-- Remove leading and trailing whitespace, as `str.strip()` does. -/
def stripChars (l : List Char) : List Char :=
  ((l.dropWhile isSpace).reverse.dropWhile isSpace).reverse

/-- Character-list form of `clean_comment`. -/
def cleanChars (l : List Char) : List Char :=
  stripChars (collapseWS false l)

/-- `clean_comment(text)` from the source: `re.sub(r"\s+", " ", text).strip()`. -/
def clean_comment (s : String) : String :=
  ⟨cleanChars s.data⟩

/-- Python string slicing `[:50]`, applied to the winning comment text. -/
def truncate50 (s : String) : String :=
  ⟨s.data.take 50⟩

/-- Python's `str.strip()` at the `String` level; used on the final reply text. -/
def stripString (s : String) : String :=
  ⟨stripChars s.data⟩

/-- The card-name shortening of `get_due_cards`:
`(card["name"][:30] + "...") if len(card["name"]) > 30 else card["name"]`. -/
def shortCardName (nm : String) : String :=
  if nm.length > 30 then String.mk (nm.data.take 30) ++ "..." else nm

/-- Case-sensitive list prefix test, auxiliary to the substring test. -/
def startsWithL : List Char → List Char → Bool
  | [], _ => true
  | _ :: _, [] => false
  | a :: as, b :: bs => a == b && startsWithL as bs

/-- Case-sensitive substring occurrence on character lists. -/
def containsL (needle : List Char) : List Char → Bool
  | [] => needle.isEmpty
  | b :: bs => startsWithL needle (b :: bs) || containsL needle bs

/-- Python's `needle in hay` substring test on strings (case-sensitive). -/
def hasSub (needle hay : String) : Bool :=
  containsL needle.data hay.data

/-! ## The JSON shapes read from the Planka API

Every dictionary key the script accesses is modelled as an `Option` field:
`none` means the key is absent, so accessing it raises `KeyError`
(`card.get(...)` accesses never raise). -/

/-- An element of the `items` array of `GET /projects`. -/
structure ProjectObj where
  name : Option String
  id : Option String
deriving DecidableEq, Repr

/-- Body of `GET /projects`. -/
structure ProjectsResp where
  items : Option (List ProjectObj)
deriving DecidableEq, Repr

/-- An element of `included.boards` of `GET /projects/{id}`. -/
structure BoardObj where
  name : Option String
  id : Option String
deriving DecidableEq, Repr

/-- The `included` object of `GET /projects/{id}`. -/
structure ProjIncluded where
  boards : Option (List BoardObj)
deriving DecidableEq, Repr

/-- Body of `GET /projects/{id}`. -/
structure ProjectDetailResp where
  included : Option ProjIncluded
deriving DecidableEq, Repr

/-- An element of `included.lists` of `GET /boards/{id}`. -/
structure ListObj where
  id : Option String
deriving DecidableEq, Repr

/-- An element of `included.cards` of `GET /boards/{id}`.  `dueDate`:
`none` models an absent or null key (`card.get("dueDate")` yields `None`),
`some t` an ISO-8601 UTC timestamp that parses to `t` minutes since the
epoch.  `isDueDateCompleted` is read with `card.get(..., False)`. -/
structure CardObj where
  id : Option String
  name : Option String
  listId : Option String
  dueDate : Option Int
  isDueDateCompleted : Option Bool
deriving DecidableEq, Repr

/-- The `included` object of `GET /boards/{id}`. -/
structure BoardIncluded where
  lists : Option (List ListObj)
  cards : Option (List CardObj)
deriving DecidableEq, Repr

/-- Body of `GET /boards/{id}`. -/
structure BoardDetailResp where
  included : Option BoardIncluded
deriving DecidableEq, Repr

/-- A `createdAt` value as met by `datetime.fromisoformat`: either a string
whose parse raises `ValueError`, or one that parses to a timestamp. -/
inductive TimeStr where
  | malformed
  | valid (t : Int)
deriving DecidableEq, Repr

/-- The `data` object of a card action. -/
structure ActionData where
  text : Option String
deriving DecidableEq, Repr

/-- An element of the `items` array of `GET /cards/{id}/actions`. -/
structure ActionEntry where
  type : Option String
  data : Option ActionData
  createdAt : Option TimeStr
deriving DecidableEq, Repr

/-- Body of `GET /cards/{id}/actions`. -/
structure ActionsResp where
  items : Option (List ActionEntry)
deriving DecidableEq, Repr

/-- Outcome of `POST /access-tokens` in `get_token`: the request can fail in
transport, `raise_for_status()` can raise `requests.HTTPError` on a non-2xx
status, `response.json()` can raise `ValueError`, or a JSON body is returned
whose `item` key is the token (or absent). -/
inductive TokenFetch where
  | transportError
  | httpError
  | decodeError
  | okJson (item : Option String)
deriving DecidableEq, Repr

/-- The environment a run of the bot reads: the configured display-timezone
offset (minutes), the `BOARD_IDS` allow-list, and one response per endpoint.
The response functions take the literal `Authorization` header value —
relevant because the header built from a `None` token is `"Bearer None"`. -/
structure PlankaEnv where
  tzOffsetMin : Int
  boardIds : List String
  tokenResp : TokenFetch
  projectsResp : String → Fetch ProjectsResp
  projectResp : String → String → Fetch ProjectDetailResp
  boardResp : String → String → Fetch BoardDetailResp
  actionsResp : String → String → Fetch ActionsResp

/-- The header Python builds with `f"Bearer {token}"`: interpolating `None`
produces the literal string `"Bearer None"`. -/
def bearerHeader : Option String → String
  | some t => "Bearer " ++ t
  | none => "Bearer None"

/-- `get_token()` from the source.  Transport and HTTP failures are caught by
`except requests.RequestException` and become `None`; a `ValueError` from
`response.json()` and a `KeyError` from `["item"]` are not caught. -/
def get_token (env : PlankaEnv) : Except PyErr (Option String) :=
  match env.tokenResp with
  | .transportError => .ok none
  | .httpError => .ok none
  | .decodeError => .error .valueError
  | .okJson item =>
    match item with
    | none => .error (.keyError "item")
    | some tok => .ok (some tok)

/-! ## The comment fetcher `get_last_comment` -/

/-- A parsed comment as built inside `get_last_comment`: the cleaned text and
the parsed `createdAt` timestamp. -/
structure CommentRec where
  text : String
  createdAt : Int
deriving DecidableEq, Repr

/-- One step of the list comprehension in `get_last_comment`: test
`c["type"] == "commentCard"` and, if it matches, build
`{"text": clean_comment(c["data"]["text"]), "createdAt": fromisoformat(...)}`.
Missing keys raise `KeyError`; a malformed timestamp raises `ValueError`. -/
def buildComment (c : ActionEntry) : Except PyErr (Option CommentRec) :=
  match c.type with
  | none => .error (.keyError "type")
  | some ty =>
    if ty = "commentCard" then
      match c.data with
      | none => .error (.keyError "data")
      | some d =>
        match d.text with
        | none => .error (.keyError "text")
        | some txt =>
          match c.createdAt with
          | none => .error (.keyError "createdAt")
          | some ts =>
            match ts with
            | .malformed => .error .valueError
            | .valid t => .ok (some { text := clean_comment txt, createdAt := t })
    else .ok none

/-- The whole list comprehension of `get_last_comment`, raising the leftmost
failing element's exception. -/
def buildComments : List ActionEntry → Except PyErr (List CommentRec)
  | [] => .ok []
  | c :: cs =>
    match buildComment c with
    | .error e => .error e
    | .ok o =>
      match buildComments cs with
      | .error e => .error e
      | .ok rest => .ok (match o with | some r => r :: rest | none => rest)

/-- Insertion into a list sorted by decreasing `createdAt`; models one step of
`comments.sort(key=lambda x: x["createdAt"], reverse=True)`. -/
def insertDesc (x : CommentRec) : List CommentRec → List CommentRec
  | [] => [x]
  | y :: ys => if y.createdAt < x.createdAt then x :: y :: ys else y :: insertDesc x ys

/-- Sort by decreasing `createdAt` (a stable sort, like Python's). -/
def sortDesc : List CommentRec → List CommentRec
  | [] => []
  | x :: xs => insertDesc x (sortDesc xs)

/-- The `try` body of `get_last_comment`, before the `except` clauses. -/
def lastCommentBody (env : PlankaEnv) (token : Option String) (cardId : String) :
    Except PyErr String :=
  match env.actionsResp (bearerHeader token) cardId with
  | .transportError => .error .requestException
  | .decodeError => .error .valueError
  | .ok resp =>
    match resp.items with
    | none => .ok ""
    | some items =>
      match buildComments items with
      | .error e => .error e
      | .ok comments =>
        if comments.isEmpty then .ok ""
        else
          match sortDesc comments with
          | [] => .ok ""
          | c :: _ => .ok (truncate50 c.text)

/-- The two `except` clauses of `get_last_comment`:
`requests.RequestException` and `ValueError` become `""`; anything else — in
particular `KeyError` — keeps propagating. -/
def absorb (r : Except PyErr String) : Except PyErr String :=
  match r with
  | .error .requestException => .ok ""
  | .error .valueError => .ok ""
  | other => other

/-- `get_last_comment(token, card_id)` from the source. -/
def get_last_comment (env : PlankaEnv) (token : Option String) (cardId : String) :
    Except PyErr String :=
  absorb (lastCommentBody env token cardId)

/-! ## Dates and their rendering -/

/-- Gregorian calendar date of a day number (days since 1970-01-01), as
`(year, month, day)`; the standard civil-from-days algorithm. -/
def civilFromDays (z0 : Int) : Int × Int × Int :=
  let z := z0 + 719468
  let era := z.fdiv 146097
  let doe := z - era * 146097
  let yoe := (doe - doe.fdiv 1460 + doe.fdiv 36524 - doe.fdiv 146096).fdiv 365
  let y := yoe + era * 400
  let doy := doe - (365 * yoe + yoe.fdiv 4 - yoe.fdiv 100)
  let mp := (5 * doy + 2).fdiv 153
  let d := doy - (153 * mp + 2).fdiv 5 + 1
  let m := mp + (if mp < 10 then 3 else -9)
  (if m ≤ 2 then y + 1 else y, m, d)

/-- Zero-pad a number to two digits, as `%d`, `%m`, `%H`, `%M` do. -/
def natPad2 (n : Nat) : String :=
  if n < 10 then "0" ++ toString n else toString n

/-- Zero-pad a year to four digits, as `%Y` does. -/
def natPad4 (n : Nat) : String :=
  if n < 10 then "000" ++ toString n
  else if n < 100 then "00" ++ toString n
  else if n < 1000 then "0" ++ toString n
  else toString n

/-- `due_date_obj.strftime("%d-%m-%Y %H:%M")` on the local datetime given as
minutes since the epoch. -/
def formatDueDate (localMin : Int) : String :=
  let day := localMin.fdiv 1440
  let m := (localMin - 1440 * day).toNat
  match civilFromDays day with
  | (y, mo, d) =>
    natPad2 d.toNat ++ "-" ++ natPad2 mo.toNat ++ "-" ++ natPad4 y.toNat ++ " " ++
      natPad2 (m / 60) ++ ":" ++ natPad2 (m % 60)

/-- `datetime.date.min` (0001-01-01) as a day number relative to 1970-01-01. -/
def dateMin : Int := -719162

/-! ## The report built by `get_due_cards`

The Python `result` is a dict of dicts of lists with insertion order; it is
modelled as nested association lists. -/

/-- One tuple appended to `result[project][board]`:
`(short_name, formatted due date, comment)`. -/
abbrev CardEntry := String × String × String

/-- The `result` dictionary of `get_due_cards`. -/
abbrev Report := List (String × List (String × List CardEntry))

/-- `result[project_name][board_name].append(entry)` on the inner dict,
creating `result[project_name][board_name] = []` first when absent. -/
def appendToBoard (boards : List (String × List CardEntry)) (bname : String)
    (e : CardEntry) : List (String × List CardEntry) :=
  if boards.any (fun p => p.1 == bname) then
    boards.map (fun p => if p.1 == bname then (p.1, p.2 ++ [e]) else p)
  else boards ++ [(bname, [e])]

/-- The whole `result`-update block of `get_due_cards`: create the nested
entries on first use, then append the tuple. -/
def appendEntry (r : Report) (pname bname : String) (e : CardEntry) : Report :=
  if r.any (fun p => p.1 == pname) then
    r.map (fun p => if p.1 == pname then (p.1, appendToBoard p.2 bname e) else p)
  else r ++ [(pname, appendToBoard [] bname e)]

/-! ## The aggregator `get_due_cards` -/

/-- The body of the innermost `for card in cards` loop of `get_due_cards`:
skip cards whose `listId` is absent or not among the board's list ids, whose
`dueDate` is absent, or whose `isDueDateCompleted` (default `False`) is set;
otherwise compare the local calendar date with the inclusive window and, on a
match, append `(short_name, formatted date, comment)` to the report. -/
def processCard (env : PlankaEnv) (token : Option String) (sd ed : Int)
    (validListIds : List String) (pname bname : String)
    (result : Report) (card : CardObj) : Except PyErr Report :=
  match card.listId with
  | none => .ok result
  | some lid =>
    if lid ∈ validListIds then
      match card.dueDate with
      | none => .ok result
      | some due =>
        if card.isDueDateCompleted.getD false then .ok result
        else
          if sd ≤ (due + env.tzOffsetMin).fdiv 1440 ∧ (due + env.tzOffsetMin).fdiv 1440 ≤ ed then
            match card.name with
            | none => .error (.keyError "name")
            | some nm =>
              match card.id with
              | none => .error (.keyError "id")
              | some cid =>
                match get_last_comment env token cid with
                | .error e => .error e
                | .ok comment =>
                  .ok (appendEntry result pname bname
                        (shortCardName nm, formatDueDate (due + env.tzOffsetMin), comment))
          else .ok result
    else .ok result

/-- The `for card in cards` loop. -/
def processCards (env : PlankaEnv) (token : Option String) (sd ed : Int)
    (validListIds : List String) (pname bname : String) :
    Report → List CardObj → Except PyErr Report
  | result, [] => .ok result
  | result, c :: cs =>
    match processCard env token sd ed validListIds pname bname result c with
    | .error e => .error e
    | .ok r => processCards env token sd ed validListIds pname bname r cs

/-- `{lst["id"] for lst in included_lists}`; a missing `id` raises `KeyError`.
Membership is all the set is used for, so a list suffices. -/
def listIds : List ListObj → Except PyErr (List String)
  | [] => .ok []
  | l :: ls =>
    match l.id with
    | none => .error (.keyError "id")
    | some i =>
      match listIds ls with
      | .error e => .error e
      | .ok rest => .ok (i :: rest)

/-- `[b for b in boards if b["id"] in BOARD_IDS]`; accessing `b["id"]` can
raise `KeyError` even for boards that would be filtered out. -/
def filterBoards (boardIds : List String) : List BoardObj → Except PyErr (List BoardObj)
  | [] => .ok []
  | b :: bs =>
    match b.id with
    | none => .error (.keyError "id")
    | some i =>
      match filterBoards boardIds bs with
      | .error e => .error e
      | .ok rest => .ok (if i ∈ boardIds then b :: rest else rest)

/-- The body of the `for board in filtered_boards` loop: read the board's
name and id, fetch its detail view, collect the valid list ids, and run the
card loop over `included.cards`. -/
def processBoard (env : PlankaEnv) (token : Option String) (sd ed : Int)
    (pname : String) (result : Report) (board : BoardObj) : Except PyErr Report :=
  match board.name with
  | none => .error (.keyError "name")
  | some bname =>
    match board.id with
    | none => .error (.keyError "id")
    | some bid =>
      match env.boardResp (bearerHeader token) bid with
      | .transportError => .error .requestException
      | .decodeError => .error .valueError
      | .ok resp =>
        match resp.included with
        | none => .error (.keyError "included")
        | some inc =>
          match inc.lists with
          | none => .error (.keyError "lists")
          | some lists =>
            match listIds lists with
            | .error e => .error e
            | .ok validListIds =>
              match inc.cards with
              | none => .error (.keyError "cards")
              | some cards =>
                processCards env token sd ed validListIds pname bname result cards

/-- The `for board in filtered_boards` loop. -/
def processBoards (env : PlankaEnv) (token : Option String) (sd ed : Int)
    (pname : String) : Report → List BoardObj → Except PyErr Report
  | result, [] => .ok result
  | result, b :: bs =>
    match processBoard env token sd ed pname result b with
    | .error e => .error e
    | .ok r => processBoards env token sd ed pname r bs

/-- The body of the `for project in projects` loop: read the project's name
and id, fetch its detail view, filter its boards by `BOARD_IDS`, and run the
board loop. -/
def processProject (env : PlankaEnv) (token : Option String) (sd ed : Int)
    (result : Report) (project : ProjectObj) : Except PyErr Report :=
  match project.name with
  | none => .error (.keyError "name")
  | some pname =>
    match project.id with
    | none => .error (.keyError "id")
    | some pid =>
      match env.projectResp (bearerHeader token) pid with
      | .transportError => .error .requestException
      | .decodeError => .error .valueError
      | .ok resp =>
        match resp.included with
        | none => .error (.keyError "included")
        | some inc =>
          match inc.boards with
          | none => .error (.keyError "boards")
          | some boards =>
            match filterBoards env.boardIds boards with
            | .error e => .error e
            | .ok filtered => processBoards env token sd ed pname result filtered

/-- The `for project in projects` loop. -/
def processProjects (env : PlankaEnv) (token : Option String) (sd ed : Int) :
    Report → List ProjectObj → Except PyErr Report
  | result, [] => .ok result
  | result, p :: ps =>
    match processProject env token sd ed result p with
    | .error e => .error e
    | .ok r => processProjects env token sd ed r ps

/-- `get_due_cards(token, start_date, end_date)` from the source.  No `try`
wraps the body, so every exception propagates to the caller. -/
def get_due_cards (env : PlankaEnv) (token : Option String) (sd ed : Int) :
    Except PyErr Report :=
  match env.projectsResp (bearerHeader token) with
  | .transportError => .error .requestException
  | .decodeError => .error .valueError
  | .ok resp =>
    match resp.items with
    | none => .error (.keyError "items")
    | some projects => processProjects env token sd ed [] projects

/-! ## The command surface: buttons, window selection, reply formatting -/

/-- The exact texts of the three window buttons of the reply keyboard. -/
def btnToday : String := "🗓 Tasks for today"

/-- The tomorrow button's text; note the capital `T` of `Tomorrow`. -/
def btnTomorrow : String := "🗓 Tomorrow" ++ Char.toString '\'' ++ "s tasks"

/-- The week button's text. -/
def btnWeek : String := "🗓 Tasks for the week"

/-- The date-window dispatch at the top of `send_tasks`:
`if "today" in message.text: ... elif "tomorrow" in message.text: ... else: ...`,
returning `(start_date, end_date)` as day numbers. -/
def selectWindow (text : String) (today : Int) : Int × Int :=
  if hasSub "today" text then (dateMin, today)
  else if hasSub "tomorrow" text then (today + 1, today + 1)
  else (dateMin, today + 7)

/-- One card line of the reply, with the optional italicised comment line. -/
def formatCardLine (e : CardEntry) : String :=
  "\n📄 Card: " ++ e.1 ++ "(🕒 " ++ e.2.1 ++ ")\n" ++
    (if e.2.2 ≠ "" then "<i>💬 Comment: " ++ e.2.2 ++ "</i>\n" else "")

/-- One board block of the reply: header, card lines, separator. -/
def formatBoard (acc : String) (b : String × List CardEntry) : String :=
  (b.2.foldl (fun a e => a ++ formatCardLine e)
    (acc ++ "\nBoard: <b>" ++ b.1 ++ "</b>\n")) ++ "---\n"

/-- One project block of the reply: header then board blocks. -/
def formatProject (acc : String) (p : String × List (String × List CardEntry)) : String :=
  p.2.foldl formatBoard (acc ++ "\n----- Project: <b>" ++ p.1 ++ "</b> -----\n")

/-- The `response_text` accumulation loop of `send_tasks`. -/
def formatReport (r : Report) : String :=
  r.foldl formatProject ""

/-- The reply sent when the report is empty. -/
def congratsMsg : String := "Congratulations! There are no tasks for the selected period!"

/-- `send_tasks` from the source, reduced to its reply value: select the
window from the message text, fetch a fresh token (with no check of the
`None` failure value), run the aggregation with it, and format.  An
exception anywhere surfaces as `.error` — the handler sends no reply then. -/
def send_tasks (env : PlankaEnv) (text : String) (today : Int) : Except PyErr String :=
  let w := selectWindow text today
  match get_token env with
  | .error e => .error e
  | .ok token =>
    match get_due_cards env token w.1 w.2 with
    | .error e => .error e
    | .ok tasks =>
      if tasks.isEmpty then .ok congratsMsg
      else
        let txt := stripString (formatReport tasks)
        .ok (if txt = "" then congratsMsg else txt)

/-! ## The spec's inclusion predicate (for the refinement claim) -/

/-- Modelled from the spec's words, not from the code: a card is
*due-relevant* for a board iff its `listId` is present and among the board's
valid list ids, its `dueDate` is present, its (effective)
`isDueDateCompleted` is false, and the local calendar date of `dueDate` lies
in the inclusive window `[sd, ed]`. -/
def dueRelevantSpec (validListIds : List String) (tzOffsetMin sd ed : Int)
    (card : CardObj) : Bool :=
  (match card.listId with
   | some lid => decide (lid ∈ validListIds)
   | none => false) &&
  !(card.isDueDateCompleted.getD false) &&
  (match card.dueDate with
   | some t => decide (sd ≤ (t + tzOffsetMin).fdiv 1440 ∧ (t + tzOffsetMin).fdiv 1440 ≤ ed)
   | none => false)

/-! ## Derived report measures -/

/-- Total number of card tuples under one project's board dictionary. -/
def boardEntryCount (bs : List (String × List CardEntry)) : Nat :=
  (bs.map (fun b => b.2.length)).sum

/-- Total number of card tuples in a report. -/
def entryCount (r : Report) : Nat :=
  (r.map (fun p => boardEntryCount p.2)).sum

/-- All card tuples of a report, in order. -/
def reportEntries (r : Report) : List CardEntry :=
  (r.map (fun p => (p.2.map (fun b => b.2)).flatten)).flatten

/-- Boolean well-formedness: no project maps to an empty board dictionary and
no board maps to an empty entry list. -/
def reportWF (r : Report) : Bool :=
  r.all (fun p => !p.2.isEmpty && p.2.all (fun b => !b.2.isEmpty))

/-! ## Shape of whitespace-normalized text -/

/-- Adjacent characters are not both whitespace. -/
def WSChain (a b : Char) : Prop := isSpace a = false ∨ isSpace b = false

/-- No two adjacent whitespace characters anywhere in the list. -/
def NoDouble (l : List Char) : Prop := l.Chain' WSChain

/-- The head, if any, is not whitespace. -/
def HeadNS (l : List Char) : Prop := ∀ c ∈ l.head?, isSpace c = false

/-- Every whitespace character in the list is a plain space. -/
def BlankOnly (l : List Char) : Prop := ∀ c ∈ l, isSpace c = true → c = ' '

theorem collapse_space_true {c : Char} (cs : List Char) (hc : isSpace c = true) :
    collapseWS true (c :: cs) = collapseWS true cs := by
  simp [collapseWS, hc]

theorem collapse_space_false {c : Char} (cs : List Char) (hc : isSpace c = true) :
    collapseWS false (c :: cs) = ' ' :: collapseWS true cs := by
  simp [collapseWS, hc]

theorem collapse_nonspace (b : Bool) {c : Char} (cs : List Char) (hc : isSpace c = false) :
    collapseWS b (c :: cs) = c :: collapseWS false cs := by
  cases b <;> simp [collapseWS, hc]

theorem blankOnly_collapse (b : Bool) (l : List Char) : BlankOnly (collapseWS b l) := by
  induction l generalizing b with
  | nil => intro c hc; cases hc
  | cons c cs ih =>
    cases hc : isSpace c with
    | true =>
      cases b with
      | true => rw [collapse_space_true cs hc]; exact ih true
      | false =>
        rw [collapse_space_false cs hc]
        intro d hd hds
        rcases List.mem_cons.mp hd with rfl | hd
        · rfl
        · exact ih true d hd hds
    | false =>
      rw [collapse_nonspace b cs hc]
      intro d hd hds
      rcases List.mem_cons.mp hd with rfl | hd
      · exact absurd hds (by simp [hc])
      · exact ih false d hd hds

theorem headNS_collapse (l : List Char) : HeadNS (collapseWS true l) := by
  induction l with
  | nil => intro c hc; cases hc
  | cons c cs ih =>
    cases hc : isSpace c with
    | true => rw [collapse_space_true cs hc]; exact ih
    | false =>
      rw [collapse_nonspace true cs hc]
      intro d hd
      simp only [List.head?_cons, Option.mem_def, Option.some.injEq] at hd
      subst hd; exact hc

theorem noDouble_collapse (b : Bool) (l : List Char) : NoDouble (collapseWS b l) := by
  induction l generalizing b with
  | nil => exact List.chain'_nil
  | cons c cs ih =>
    cases hc : isSpace c with
    | true =>
      cases b with
      | true => rw [collapse_space_true cs hc]; exact ih true
      | false =>
        rw [collapse_space_false cs hc]
        exact List.chain'_cons'.mpr
          ⟨fun d hd => Or.inr (headNS_collapse cs d hd), ih true⟩
    | false =>
      rw [collapse_nonspace b cs hc]
      exact List.chain'_cons'.mpr ⟨fun d _ => Or.inl hc, ih false⟩

/-- On a list that is already in normalized shape, `collapseWS` is the
identity (in run-mode `false`; in run-mode `true` the head must not be
whitespace). -/
theorem collapse_fix (l : List Char) :
    (BlankOnly l → NoDouble l → collapseWS false l = l) ∧
    (BlankOnly l → NoDouble l → HeadNS l → collapseWS true l = l) := by
  induction l with
  | nil => exact ⟨fun _ _ => rfl, fun _ _ _ => rfl⟩
  | cons c cs ih =>
    have tailBlank : BlankOnly (c :: cs) → BlankOnly cs :=
      fun hb d hd hds => hb d (List.mem_cons_of_mem c hd) hds
    have tailND : NoDouble (c :: cs) → NoDouble cs := fun hn => hn.tail
    constructor
    · intro hb hn
      cases hc : isSpace c with
      | false =>
        rw [collapse_nonspace false cs hc]
        rw [ih.1 (tailBlank hb) (tailND hn)]
      | true =>
        have hcsp : c = ' ' := hb c (List.mem_cons_self c cs) hc
        have hhead : HeadNS cs := by
          intro d hd
          rcases List.chain'_cons'.mp hn with ⟨hrel, _⟩
          rcases hrel d hd with h | h
          · exact absurd hc (by simp [h])
          · exact h
        rw [collapse_space_false cs hc]
        rw [ih.2 (tailBlank hb) (tailND hn) hhead, hcsp]
    · intro hb hn hh
      have hc : isSpace c = false := hh c rfl
      rw [collapse_nonspace true cs hc]
      rw [ih.1 (tailBlank hb) (tailND hn)]

theorem headNS_dropWhile (l : List Char) : HeadNS (l.dropWhile isSpace) := by
  induction l with
  | nil => intro c hc; cases hc
  | cons c cs ih =>
    cases hc : isSpace c with
    | true => rw [List.dropWhile_cons_of_pos (by simp [hc])]; exact ih
    | false =>
      rw [List.dropWhile_cons_of_neg (by simp [hc])]
      intro d hd
      simp only [List.head?_cons, Option.mem_def, Option.some.injEq] at hd
      subst hd; exact hc

theorem dropWhile_decomp (p : Char → Bool) (l : List Char) :
    ∃ t, t ++ l.dropWhile p = l := by
  induction l with
  | nil => exact ⟨[], rfl⟩
  | cons c cs ih =>
    cases hc : p c with
    | true =>
      obtain ⟨t, ht⟩ := ih
      refine ⟨c :: t, ?_⟩
      rw [List.dropWhile_cons_of_pos (by simp [hc]), List.cons_append, ht]
    | false =>
      refine ⟨[], ?_⟩
      rw [List.dropWhile_cons_of_neg (by simp [hc]), List.nil_append]

theorem dropWhile_of_headNS {l : List Char} (h : HeadNS l) : l.dropWhile isSpace = l := by
  cases l with
  | nil => rfl
  | cons c cs => rw [List.dropWhile_cons_of_neg (by simp [h c rfl])]

/-- `stripChars` fixes a list whose first and last characters are not
whitespace. -/
theorem strip_fix {l : List Char} (h1 : HeadNS l) (h2 : HeadNS l.reverse) :
    stripChars l = l := by
  unfold stripChars
  rw [dropWhile_of_headNS h1, dropWhile_of_headNS h2, List.reverse_reverse]

/-- The output of `stripChars` on a collapsed list keeps the collapsed shape
and in addition has non-whitespace first and last characters. -/
theorem stripChars_shape {x : List Char} (hb : BlankOnly x) (hn : NoDouble x) :
    BlankOnly (stripChars x) ∧ NoDouble (stripChars x) ∧
    HeadNS (stripChars x) ∧ HeadNS (stripChars x).reverse := by
  obtain ⟨t1, ht1⟩ := dropWhile_decomp isSpace x
  obtain ⟨t2, ht2⟩ := dropWhile_decomp isSpace (x.dropWhile isSpace).reverse
  have hz : stripChars x = ((x.dropWhile isSpace).reverse.dropWhile isSpace).reverse := rfl
  have hy : x.dropWhile isSpace = stripChars x ++ t2.reverse := by
    have := congrArg List.reverse ht2
    simpa [hz, List.reverse_append] using this.symm
  refine ⟨?_, ?_, ?_, ?_⟩
  · intro c hc hcs
    refine hb c ?_ hcs
    rw [← ht1, hy, List.mem_append, List.mem_append]
    exact Or.inr (Or.inl hc)
  · have hnx : NoDouble (t1 ++ (stripChars x ++ t2.reverse)) := by
      rw [← hy, ht1]; exact hn
    have h1 := (List.chain'_append.mp hnx).2.1
    exact (List.chain'_append.mp h1).1
  · have hys := headNS_dropWhile x
    rw [hy] at hys
    intro c hc
    cases hzz : stripChars x with
    | nil => rw [hzz] at hc; cases hc
    | cons a zs =>
      rw [hzz] at hc hys
      simp only [List.head?_cons, Option.mem_def, Option.some.injEq] at hc
      subst hc
      exact hys a (by simp)
  · rw [hz, List.reverse_reverse]
    exact headNS_dropWhile _

/-- Character-list idempotence of the whitespace normalization. -/
theorem cleanChars_idem (l : List Char) : cleanChars (cleanChars l) = cleanChars l := by
  have hb := blankOnly_collapse false l
  have hn := noDouble_collapse false l
  obtain ⟨zb, zn, zh, zr⟩ := stripChars_shape hb hn
  show stripChars (collapseWS false (cleanChars l)) = cleanChars l
  unfold cleanChars
  rw [(collapse_fix _).1 zb zn]
  exact strip_fix zh zr

/-! ## The head of the descending sort -/

theorem length_insertDesc (x : CommentRec) (l : List CommentRec) :
    (insertDesc x l).length = l.length + 1 := by
  induction l with
  | nil => rfl
  | cons y ys ih =>
    by_cases h : y.createdAt < x.createdAt
    · simp [insertDesc, h]
    · simp [insertDesc, h, ih]

theorem length_sortDesc (l : List CommentRec) : (sortDesc l).length = l.length := by
  induction l with
  | nil => rfl
  | cons x xs ih => simp [sortDesc, length_insertDesc, ih]

/-- The head of the descending sort is an element with maximal `createdAt`. -/
theorem sortDesc_head_max :
    ∀ (l : List CommentRec) (c : CommentRec) (rest : List CommentRec),
      sortDesc l = c :: rest → c ∈ l ∧ ∀ y ∈ l, y.createdAt ≤ c.createdAt := by
  intro l
  induction l with
  | nil => intro c rest h; exact absurd h (by simp [sortDesc])
  | cons a l2 ih =>
    intro c rest h
    rw [sortDesc] at h
    cases hs : sortDesc l2 with
    | nil =>
      have hl2 : l2 = [] := by
        have := length_sortDesc l2
        rw [hs] at this
        exact List.length_eq_zero.mp this.symm
      rw [hs] at h
      simp only [insertDesc, List.cons.injEq] at h
      subst hl2
      refine ⟨by simp [h.1], ?_⟩
      intro y hy
      rcases List.mem_singleton.mp hy with rfl
      rw [h.1]
    | cons b t =>
      rw [hs] at h
      obtain ⟨hbmem, hbmax⟩ := ih b t hs
      by_cases hlt : b.createdAt < a.createdAt
      · simp only [insertDesc, hlt, if_true] at h
        obtain ⟨rfl, -⟩ := List.cons.injEq .. |>.mp h
        refine ⟨List.mem_cons_self a l2, ?_⟩
        intro y hy
        rcases List.mem_cons.mp hy with rfl | hy
        · exact le_refl _
        · exact le_trans (hbmax y hy) (le_of_lt hlt)
      · simp only [insertDesc, hlt, if_false] at h
        obtain ⟨rfl, -⟩ := List.cons.injEq .. |>.mp h
        refine ⟨List.mem_cons_of_mem a hbmem, ?_⟩
        intro y hy
        rcases List.mem_cons.mp hy with rfl | hy
        · exact le_of_not_lt hlt
        · exact hbmax y hy

/-! ## Report measures under `appendEntry` -/

theorem boardEntryCount_nil : boardEntryCount [] = 0 := rfl

theorem entryCount_nil : entryCount [] = 0 := rfl

theorem boardEntryCount_cons (p : String × List CardEntry)
    (ps : List (String × List CardEntry)) :
    boardEntryCount (p :: ps) = p.2.length + boardEntryCount ps := by
  simp [boardEntryCount]

theorem boardEntryCount_append (l1 l2 : List (String × List CardEntry)) :
    boardEntryCount (l1 ++ l2) = boardEntryCount l1 + boardEntryCount l2 := by
  simp [boardEntryCount]

theorem entryCount_cons (p : String × List (String × List CardEntry)) (ps : Report) :
    entryCount (p :: ps) = boardEntryCount p.2 + entryCount ps := by
  simp [entryCount, boardEntryCount]

theorem entryCount_append (l1 l2 : Report) :
    entryCount (l1 ++ l2) = entryCount l1 + entryCount l2 := by
  simp [entryCount]

theorem boardEntryCount_map_ge (bs : List (String × List CardEntry)) (bname : String)
    (e : CardEntry) :
    boardEntryCount bs ≤
      boardEntryCount (bs.map (fun p => if p.1 == bname then (p.1, p.2 ++ [e]) else p)) := by
  induction bs with
  | nil => exact le_refl _
  | cons p ps ih =>
    rw [List.map_cons, boardEntryCount_cons, boardEntryCount_cons]
    by_cases h : (p.1 == bname) = true
    · rw [if_pos h]
      simp only [List.length_append, List.length_singleton]
      omega
    · rw [if_neg h]
      omega

theorem boardEntryCount_map_gt (bs : List (String × List CardEntry)) (bname : String)
    (e : CardEntry) (hany : bs.any (fun p => p.1 == bname) = true) :
    boardEntryCount bs <
      boardEntryCount (bs.map (fun p => if p.1 == bname then (p.1, p.2 ++ [e]) else p)) := by
  induction bs with
  | nil => simp at hany
  | cons p ps ih =>
    rw [List.map_cons, boardEntryCount_cons, boardEntryCount_cons]
    by_cases h : (p.1 == bname) = true
    · rw [if_pos h]
      have := boardEntryCount_map_ge ps bname e
      simp only [List.length_append, List.length_singleton]
      omega
    · rw [if_neg h]
      have hps : ps.any (fun p => p.1 == bname) = true := by
        rcases List.any_eq_true.mp hany with ⟨q, hq, hqb⟩
        rcases List.mem_cons.mp hq with rfl | hq
        · exact absurd hqb h
        · exact List.any_eq_true.mpr ⟨q, hq, hqb⟩
      have := ih hps
      omega

theorem boardEntryCount_appendToBoard_gt (bs : List (String × List CardEntry))
    (bname : String) (e : CardEntry) :
    boardEntryCount bs < boardEntryCount (appendToBoard bs bname e) := by
  unfold appendToBoard
  by_cases hany : bs.any (fun p => p.1 == bname) = true
  · rw [if_pos hany]
    exact boardEntryCount_map_gt bs bname e hany
  · rw [if_neg hany, boardEntryCount_append, boardEntryCount_cons]
    simp [boardEntryCount]

theorem entryCount_map_ge (r : Report) (pname bname : String) (e : CardEntry) :
    entryCount r ≤
      entryCount (r.map (fun p => if p.1 == pname then (p.1, appendToBoard p.2 bname e) else p)) := by
  induction r with
  | nil => exact le_refl _
  | cons p ps ih =>
    rw [List.map_cons, entryCount_cons, entryCount_cons]
    by_cases h : (p.1 == pname) = true
    · rw [if_pos h]
      dsimp only
      have := boardEntryCount_appendToBoard_gt p.2 bname e
      omega
    · rw [if_neg h]
      omega

theorem entryCount_map_gt (r : Report) (pname bname : String) (e : CardEntry)
    (hany : r.any (fun p => p.1 == pname) = true) :
    entryCount r <
      entryCount (r.map (fun p => if p.1 == pname then (p.1, appendToBoard p.2 bname e) else p)) := by
  induction r with
  | nil => simp at hany
  | cons p ps ih =>
    rw [List.map_cons, entryCount_cons, entryCount_cons]
    by_cases h : (p.1 == pname) = true
    · rw [if_pos h]
      dsimp only
      have h1 := boardEntryCount_appendToBoard_gt p.2 bname e
      have h2 := entryCount_map_ge ps pname bname e
      omega
    · rw [if_neg h]
      have hps : ps.any (fun p => p.1 == pname) = true := by
        rcases List.any_eq_true.mp hany with ⟨q, hq, hqb⟩
        rcases List.mem_cons.mp hq with rfl | hq
        · exact absurd hqb h
        · exact List.any_eq_true.mpr ⟨q, hq, hqb⟩
      have := ih hps
      omega

/-- `appendEntry` strictly increases the number of card tuples, hence a card
that passes the filter genuinely contributes to the report. -/
theorem entryCount_appendEntry_gt (r : Report) (pname bname : String) (e : CardEntry) :
    entryCount r < entryCount (appendEntry r pname bname e) := by
  unfold appendEntry
  by_cases hany : r.any (fun p => p.1 == pname) = true
  · rw [if_pos hany]
    exact entryCount_map_gt r pname bname e hany
  · rw [if_neg hany, entryCount_append, entryCount_cons]
    dsimp only
    have := boardEntryCount_appendToBoard_gt [] bname e
    rw [boardEntryCount_nil] at this
    rw [entryCount_nil]
    omega

theorem appendEntry_ne (r : Report) (pname bname : String) (e : CardEntry) :
    appendEntry r pname bname e ≠ r := by
  intro h
  have := entryCount_appendEntry_gt r pname bname e
  rw [h] at this
  exact lt_irrefl _ this

/-! ## The report never holds an empty group -/

theorem appendToBoard_all_ne (bs : List (String × List CardEntry)) (bname : String)
    (e : CardEntry) (h : bs.all (fun b => !b.2.isEmpty) = true) :
    (appendToBoard bs bname e).all (fun b => !b.2.isEmpty) = true := by
  unfold appendToBoard
  rw [List.all_eq_true] at h
  by_cases hany : bs.any (fun p => p.1 == bname) = true
  · rw [if_pos hany, List.all_eq_true]
    intro b hb
    rcases List.mem_map.mp hb with ⟨q, hq, rfl⟩
    by_cases hqb : (q.1 == bname) = true
    · rw [if_pos hqb]
      dsimp only
      simp
    · rw [if_neg hqb]
      exact h q hq
  · rw [if_neg hany, List.all_eq_true]
    intro b hb
    rcases List.mem_append.mp hb with hb | hb
    · exact h b hb
    · rcases List.mem_singleton.mp hb with rfl
      simp

theorem appendToBoard_ne_nil (bs : List (String × List CardEntry)) (bname : String)
    (e : CardEntry) : (appendToBoard bs bname e).isEmpty = false := by
  unfold appendToBoard
  by_cases hany : bs.any (fun p => p.1 == bname) = true
  · rw [if_pos hany]
    cases bs with
    | nil => simp at hany
    | cons b bs2 => simp
  · rw [if_neg hany]
    simp

theorem reportWF_appendEntry (r : Report) (pname bname : String) (e : CardEntry)
    (h : reportWF r = true) : reportWF (appendEntry r pname bname e) = true := by
  rw [reportWF, List.all_eq_true] at h
  rw [reportWF, List.all_eq_true]
  unfold appendEntry
  by_cases hany : r.any (fun p => p.1 == pname) = true
  · rw [if_pos hany]
    intro p hp
    rcases List.mem_map.mp hp with ⟨q, hq, rfl⟩
    by_cases hqp : (q.1 == pname) = true
    · rw [if_pos hqp]
      have hq2 := h q hq
      rw [Bool.and_eq_true] at hq2
      rw [Bool.and_eq_true, appendToBoard_ne_nil]
      exact ⟨rfl, appendToBoard_all_ne q.2 bname e hq2.2⟩
    · rw [if_neg hqp]
      exact h q hq
  · rw [if_neg hany]
    intro p hp
    rcases List.mem_append.mp hp with hp | hp
    · exact h p hp
    · rcases List.mem_singleton.mp hp with rfl
      dsimp only
      rw [Bool.and_eq_true, appendToBoard_ne_nil]
      exact ⟨rfl, appendToBoard_all_ne [] bname e rfl⟩

/-- Whatever `processCard` returns successfully is either the unchanged
report or the report with one appended entry. -/
theorem processCard_ok_cases {env : PlankaEnv} {token : Option String} {sd ed : Int}
    {validListIds : List String} {pname bname : String} {result r2 : Report}
    {card : CardObj}
    (h : processCard env token sd ed validListIds pname bname result card = .ok r2) :
    r2 = result ∨ ∃ e, r2 = appendEntry result pname bname e := by
  unfold processCard at h
  repeat' split at h
  all_goals first
    | exact Except.noConfusion h
    | (injection h with h2; exact Or.inl h2.symm)
    | (injection h with h2; exact Or.inr ⟨_, h2.symm⟩)

theorem processCards_wf {env : PlankaEnv} {token : Option String} {sd ed : Int}
    {validListIds : List String} {pname bname : String} :
    ∀ (cards : List CardObj) (result r2 : Report),
      processCards env token sd ed validListIds pname bname result cards = .ok r2 →
      reportWF result = true → reportWF r2 = true := by
  intro cards
  induction cards with
  | nil =>
    intro result r2 h hwf
    unfold processCards at h
    injection h with h2
    exact h2 ▸ hwf
  | cons c cs ih =>
    intro result r2 h hwf
    unfold processCards at h
    cases hc : processCard env token sd ed validListIds pname bname result c with
    | error e => rw [hc] at h; exact Except.noConfusion h
    | ok r1 =>
      rw [hc] at h
      rcases processCard_ok_cases hc with rfl | ⟨e, rfl⟩
      · exact ih _ _ h hwf
      · exact ih _ _ h (reportWF_appendEntry _ _ _ _ hwf)

theorem processBoard_wf {env : PlankaEnv} {token : Option String} {sd ed : Int}
    {pname : String} {result r2 : Report} {board : BoardObj}
    (h : processBoard env token sd ed pname result board = .ok r2)
    (hwf : reportWF result = true) : reportWF r2 = true := by
  unfold processBoard at h
  repeat' split at h
  all_goals first
    | exact Except.noConfusion h
    | exact processCards_wf _ _ _ h hwf

theorem processBoards_wf {env : PlankaEnv} {token : Option String} {sd ed : Int}
    {pname : String} :
    ∀ (boards : List BoardObj) (result r2 : Report),
      processBoards env token sd ed pname result boards = .ok r2 →
      reportWF result = true → reportWF r2 = true := by
  intro boards
  induction boards with
  | nil =>
    intro result r2 h hwf
    unfold processBoards at h
    injection h with h2
    exact h2 ▸ hwf
  | cons b bs ih =>
    intro result r2 h hwf
    unfold processBoards at h
    cases hb : processBoard env token sd ed pname result b with
    | error e => rw [hb] at h; exact Except.noConfusion h
    | ok r1 =>
      rw [hb] at h
      exact ih _ _ h (processBoard_wf hb hwf)

theorem processProject_wf {env : PlankaEnv} {token : Option String} {sd ed : Int}
    {result r2 : Report} {project : ProjectObj}
    (h : processProject env token sd ed result project = .ok r2)
    (hwf : reportWF result = true) : reportWF r2 = true := by
  unfold processProject at h
  repeat' split at h
  all_goals first
    | exact Except.noConfusion h
    | exact processBoards_wf _ _ _ h hwf

theorem processProjects_wf {env : PlankaEnv} {token : Option String} {sd ed : Int} :
    ∀ (projects : List ProjectObj) (result r2 : Report),
      processProjects env token sd ed result projects = .ok r2 →
      reportWF result = true → reportWF r2 = true := by
  intro projects
  induction projects with
  | nil =>
    intro result r2 h hwf
    unfold processProjects at h
    injection h with h2
    exact h2 ▸ hwf
  | cons p ps ih =>
    intro result r2 h hwf
    unfold processProjects at h
    cases hp : processProject env token sd ed result p with
    | error e => rw [hp] at h; exact Except.noConfusion h
    | ok r1 =>
      rw [hp] at h
      exact ih _ _ h (processProject_wf hp hwf)

theorem get_due_cards_wf {env : PlankaEnv} {token : Option String} {sd ed : Int}
    {r : Report} (h : get_due_cards env token sd ed = .ok r) : reportWF r = true := by
  unfold get_due_cards at h
  repeat' split at h
  all_goals first
    | exact Except.noConfusion h
    | exact processProjects_wf _ _ _ h rfl

/-- A well-formed report is empty exactly when it holds no card tuple. -/
theorem reportWF_empty_iff {r : Report} (h : reportWF r = true) :
    r = [] ↔ reportEntries r = [] := by
  constructor
  · rintro rfl; rfl
  · intro he
    cases r with
    | nil => rfl
    | cons p ps =>
      rw [reportWF, List.all_eq_true] at h
      have hp := h p (List.mem_cons_self p ps)
      rw [Bool.and_eq_true] at hp
      cases hb : p.2 with
      | nil => rw [hb] at hp; simp at hp
      | cons b bs =>
        rw [hb, List.all_eq_true] at hp
        have hbne := hp.2 b (List.mem_cons_self b bs)
        cases he2 : b.2 with
        | nil => rw [he2] at hbne; simp at hbne
        | cons x xs =>
          rw [reportEntries] at he
          simp only [List.map_cons, List.flatten_cons, hb, he2] at he
          simp at he

/-! ## Claim theorems -/

/-- C6: comment whitespace normalization (`clean_comment`) is idempotent, and
a normalized comment longer than 50 characters is truncated (by the `[:50]`
slice that `get_last_comment` applies) to exactly 50 characters. -/
theorem clean_comment_idem_truncate (s t : String) :
    clean_comment (clean_comment s) = clean_comment s ∧
    ((clean_comment t).length > 50 → (truncate50 (clean_comment t)).length = 50) := by
  constructor
  · show (⟨cleanChars (String.data ⟨cleanChars s.data⟩)⟩ : String) = ⟨cleanChars s.data⟩
    rw [show String.data ⟨cleanChars s.data⟩ = cleanChars s.data from rfl, cleanChars_idem]
  · intro h
    have hlen : (clean_comment t).data.length > 50 := h
    show (String.mk ((clean_comment t).data.take 50)).length = 50
    simp only [String.length, List.length_take]
    omega

def c6Str : String := " alpha \t  beta  "

def c6Long : String := String.mk (List.replicate 60 'x')

theorem clean_comment_idem_truncate_witness :
    clean_comment (clean_comment c6Str) = clean_comment c6Str ∧
    (truncate50 (clean_comment c6Long)).length = 50 :=
  ⟨(clean_comment_idem_truncate c6Str c6Long).1,
   (clean_comment_idem_truncate c6Str c6Long).2 (by decide)⟩

/-- C7: the card name stored in the report (`shortCardName`, applied by
`get_due_cards` to every included card) is the original name when it has at
most 30 characters, and otherwise exactly its first 30 characters followed by
the ellipsis `"..."`. -/
theorem short_card_name_spec (nm : String) :
    (nm.length ≤ 30 → shortCardName nm = nm) ∧
    (nm.length > 30 →
      shortCardName nm = String.mk (nm.data.take 30) ++ "..." ∧
      (String.mk (nm.data.take 30)).length = 30) := by
  constructor
  · intro h
    unfold shortCardName
    rw [if_neg (by omega)]
  · intro h
    unfold shortCardName
    rw [if_pos h]
    refine ⟨rfl, ?_⟩
    have hlen : nm.data.length > 30 := h
    simp only [String.length, List.length_take]
    omega

def c7Name : String := String.mk (List.replicate 35 'n')

theorem short_card_name_spec_witness :
    shortCardName c7Name = String.mk (c7Name.data.take 30) ++ "..." ∧
    (String.mk (c7Name.data.take 30)).length = 30 :=
  (short_card_name_spec c7Name).2 (by decide)

/-- C4 counterexample: the claim says the second button selects tomorrow only
and the third the 7 days following today.  In the code the case-sensitive
test `"tomorrow" in message.text` never matches the button text
`"🗓 Tomorrow's tasks"` (capital `T`), so that button falls through to the
default branch `(date.min, today + 7)`; with lowercase text the tomorrow
branch does fire, showing the branch is dead only because of the casing. -/
theorem tomorrow_button_selects_week_window :
    selectWindow btnTomorrow 20454 = (dateMin, 20461) ∧
    selectWindow btnTomorrow 20454 ≠ (20455, 20455) ∧
    hasSub "tomorrow" btnTomorrow = false ∧
    selectWindow "tomorrow plans" 20454 = (20455, 20455) ∧
    selectWindow btnWeek 20454 = (dateMin, 20461) ∧
    dateMin ≠ 20455 :=
  ⟨by decide, by decide, by decide, by decide, by decide, by decide⟩

/-- C4 amended: the today button selects `(date.min, today)`; the tomorrow
button and the week button both select `(date.min, today + 7)` — the
tomorrow button because the substring test misses its capitalised text. -/
theorem button_windows_amended (today : Int) :
    selectWindow btnToday today = (dateMin, today) ∧
    selectWindow btnTomorrow today = (dateMin, today + 7) ∧
    selectWindow btnWeek today = (dateMin, today + 7) := by
  refine ⟨?_, ?_, ?_⟩
  · unfold selectWindow
    rw [if_pos (show hasSub "today" btnToday = true by decide)]
  · unfold selectWindow
    rw [if_neg (show ¬ hasSub "today" btnTomorrow = true by decide),
      if_neg (show ¬ hasSub "tomorrow" btnTomorrow = true by decide)]
  · unfold selectWindow
    rw [if_neg (show ¬ hasSub "today" btnWeek = true by decide),
      if_neg (show ¬ hasSub "tomorrow" btnWeek = true by decide)]

def env3 : PlankaEnv :=
  { tzOffsetMin := 0, boardIds := [], tokenResp := .transportError,
    projectsResp := fun _ => .ok { items := none },
    projectResp := fun _ _ => .transportError,
    boardResp := fun _ _ => .transportError,
    actionsResp := fun _ _ => .transportError }

def env3http : PlankaEnv := { env3 with tokenResp := .httpError }

/-- C3: `get_token` does return `None` (not an exception) on a transport or
HTTP error, but `send_tasks` performs no check on that value: it calls
`get_due_cards` with token `None` (header `"Bearer None"`), whose first
unauthenticated response — here a body without `items`, as Planka answers a
401 — raises `KeyError`, so the handler ends in an exception instead of
replying with a generic error.  The aggregator is invoked, never aborted. -/
theorem token_failure_reaches_aggregator :
    get_token env3 = .ok none ∧
    get_token env3http = .ok none ∧
    get_due_cards env3 none dateMin 20000 = .error (.keyError "items") ∧
    send_tasks env3 btnToday 20000 = .error (.keyError "items") :=
  ⟨rfl, rfl, rfl, rfl⟩

def c2kItems : List ActionEntry :=
  [{ type := some "commentCard", data := none, createdAt := some (.valid 0) }]

def env2k : PlankaEnv :=
  { tzOffsetMin := 0, boardIds := [], tokenResp := .transportError,
    projectsResp := fun _ => .transportError,
    projectResp := fun _ _ => .transportError,
    boardResp := fun _ _ => .transportError,
    actionsResp := fun _ _ => .ok { items := some c2kItems } }

/-- C2 counterexample: `get_last_comment` does not return a string on every
malformed response — a comment entry without its `data` key raises `KeyError`
to the caller, because only `requests.RequestException` and `ValueError` are
caught. -/
theorem latest_comment_keyerror_escapes :
    get_last_comment env2k none "c1" = .error (.keyError "data") := rfl

/-- C2 amended: `get_last_comment` degrades to `""` on transport errors, on
body-decode errors, on a response without `items`, on a `ValueError` while
building the comment list (e.g. a malformed `createdAt`), and when no entry
is a comment; but a `KeyError` from a missing key inside a comment entry
(`type`, `data`, `text`, `createdAt`) propagates to the caller. -/
theorem latest_comment_failure_modes (env : PlankaEnv) (token : Option String)
    (cid : String) :
    (env.actionsResp (bearerHeader token) cid = .transportError →
      get_last_comment env token cid = .ok "") ∧
    (env.actionsResp (bearerHeader token) cid = .decodeError →
      get_last_comment env token cid = .ok "") ∧
    (∀ resp, env.actionsResp (bearerHeader token) cid = .ok resp → resp.items = none →
      get_last_comment env token cid = .ok "") ∧
    (∀ items, env.actionsResp (bearerHeader token) cid = .ok { items := some items } →
      buildComments items = .error .valueError → get_last_comment env token cid = .ok "") ∧
    (∀ items, env.actionsResp (bearerHeader token) cid = .ok { items := some items } →
      buildComments items = .ok [] → get_last_comment env token cid = .ok "") ∧
    (∀ items k, env.actionsResp (bearerHeader token) cid = .ok { items := some items } →
      buildComments items = .error (.keyError k) →
      get_last_comment env token cid = .error (.keyError k)) := by
  refine ⟨?_, ?_, ?_, ?_, ?_, ?_⟩
  · intro h; simp [get_last_comment, lastCommentBody, absorb, h]
  · intro h; simp [get_last_comment, lastCommentBody, absorb, h]
  · intro resp h hi; simp [get_last_comment, lastCommentBody, absorb, h, hi]
  · intro items h hb; simp [get_last_comment, lastCommentBody, absorb, h, hb]
  · intro items h hb; simp [get_last_comment, lastCommentBody, absorb, h, hb, List.isEmpty]
  · intro items k h hb; simp [get_last_comment, lastCommentBody, absorb, h, hb]

def c2tEnv : PlankaEnv := { env2k with actionsResp := fun _ _ => .transportError }

def c2dEnv : PlankaEnv := { env2k with actionsResp := fun _ _ => .decodeError }

def c2nEnv : PlankaEnv := { env2k with actionsResp := fun _ _ => .ok { items := none } }

def c2vItems : List ActionEntry :=
  [{ type := some "commentCard", data := some { text := some "x" },
     createdAt := some .malformed }]

def c2vEnv : PlankaEnv := { env2k with actionsResp := fun _ _ => .ok { items := some c2vItems } }

def c2eItems : List ActionEntry :=
  [{ type := some "createCard", data := some { text := some "x" },
     createdAt := some (.valid 3) }]

def c2eEnv : PlankaEnv := { env2k with actionsResp := fun _ _ => .ok { items := some c2eItems } }

def c2kEnv : PlankaEnv := { env2k with actionsResp := fun _ _ => .ok { items := some c2kItems } }

theorem latest_comment_failure_modes_witness :
    get_last_comment c2tEnv none "c" = .ok "" ∧
    get_last_comment c2dEnv none "c" = .ok "" ∧
    get_last_comment c2nEnv none "c" = .ok "" ∧
    get_last_comment c2vEnv none "c" = .ok "" ∧
    get_last_comment c2eEnv none "c" = .ok "" ∧
    get_last_comment c2kEnv none "c" = .error (.keyError "data") :=
  ⟨(latest_comment_failure_modes c2tEnv none "c").1 rfl,
   (latest_comment_failure_modes c2dEnv none "c").2.1 rfl,
   (latest_comment_failure_modes c2nEnv none "c").2.2.1 { items := none } rfl rfl,
   (latest_comment_failure_modes c2vEnv none "c").2.2.2.1 c2vItems rfl rfl,
   (latest_comment_failure_modes c2eEnv none "c").2.2.2.2.1 c2eItems rfl rfl,
   (latest_comment_failure_modes c2kEnv none "c").2.2.2.2.2 c2kItems "data" rfl rfl⟩

/-- C5: when the comment list builds successfully and one comment has a
strictly larger `createdAt` than every other, `get_last_comment` returns that
comment's cleaned text truncated to 50 characters (the head of the
descending sort). -/
theorem latest_comment_returns_newest (env : PlankaEnv) (token : Option String)
    (cid : String) (items : List ActionEntry) (comments : List CommentRec)
    (cmax : CommentRec)
    (hresp : env.actionsResp (bearerHeader token) cid = .ok { items := some items })
    (hbuild : buildComments items = .ok comments)
    (hmem : cmax ∈ comments)
    (hmax : ∀ c ∈ comments, c ≠ cmax → c.createdAt < cmax.createdAt) :
    get_last_comment env token cid = .ok (truncate50 cmax.text) := by
  have hne : comments ≠ [] := List.ne_nil_of_mem hmem
  have hie : comments.isEmpty = false := by
    cases comments with
    | nil => exact absurd rfl hne
    | cons a l => rfl
  cases hs : sortDesc comments with
  | nil =>
    have hlen := length_sortDesc comments
    rw [hs] at hlen
    exact absurd (List.length_eq_zero.mp hlen.symm) hne
  | cons c rest =>
    obtain ⟨hcmem, hcmax⟩ := sortDesc_head_max comments c rest hs
    have hceq : c = cmax := by
      by_contra hcc
      have h1 := hmax c hcmem hcc
      have h2 := hcmax cmax hmem
      omega
    subst hceq
    simp [get_last_comment, lastCommentBody, absorb, hresp, hbuild, hie, hs]

def c5Items : List ActionEntry :=
  [ { type := some "commentCard", data := some { text := some "first  note" },
      createdAt := some (.valid 100) },
    { type := some "createCard", data := some { text := some "not a comment" },
      createdAt := some (.valid 900) },
    { type := some "commentCard", data := some { text := some "  second   note  " },
      createdAt := some (.valid 200) } ]

def env5 : PlankaEnv :=
  { tzOffsetMin := 0, boardIds := [], tokenResp := .transportError,
    projectsResp := fun _ => .transportError,
    projectResp := fun _ _ => .transportError,
    boardResp := fun _ _ => .transportError,
    actionsResp := fun _ _ => .ok { items := some c5Items } }

def c5Max : CommentRec := { text := "second note", createdAt := 200 }

theorem latest_comment_returns_newest_witness :
    get_last_comment env5 none "c1" = .ok (truncate50 c5Max.text) :=
  latest_comment_returns_newest env5 none "c1" c5Items
    [{ text := "first note", createdAt := 100 }, c5Max] c5Max
    rfl rfl (by decide) (by decide)

/-- C10: a card whose `isDueDateCompleted` key is absent is processed exactly
as if the key were present with value `False` (the `card.get(...)` default),
and a card without `dueDate` is skipped without any error. -/
theorem absent_fields_default (env : PlankaEnv) (token : Option String) (sd ed : Int)
    (validListIds : List String) (pname bname : String) (result : Report)
    (card : CardObj) :
    (card.isDueDateCompleted = none →
      processCard env token sd ed validListIds pname bname result card =
        processCard env token sd ed validListIds pname bname result
          { card with isDueDateCompleted := some false }) ∧
    (card.dueDate = none →
      processCard env token sd ed validListIds pname bname result card = .ok result) := by
  obtain ⟨cid, cname, clist, cdue, ccomp⟩ := card
  constructor
  · intro h
    simp only at h
    subst h
    cases clist <;> cases cdue <;> simp [processCard]
  · intro h
    simp only at h
    subst h
    cases clist <;> simp [processCard]

def env10 : PlankaEnv :=
  { tzOffsetMin := 0, boardIds := [], tokenResp := .transportError,
    projectsResp := fun _ => .transportError,
    projectResp := fun _ _ => .transportError,
    boardResp := fun _ _ => .transportError,
    actionsResp := fun _ _ => .transportError }

def c10Card : CardObj :=
  { id := some "c", name := some "n", listId := some "l", dueDate := none,
    isDueDateCompleted := none }

theorem absent_fields_default_witness :
    (processCard env10 none 0 10 ["l"] "P" "B" [] c10Card =
      processCard env10 none 0 10 ["l"] "P" "B" []
        { c10Card with isDueDateCompleted := some false }) ∧
    processCard env10 none 0 10 ["l"] "P" "B" [] c10Card = .ok [] :=
  ⟨(absent_fields_default env10 none 0 10 ["l"] "P" "B" [] c10Card).1 rfl,
   (absent_fields_default env10 none 0 10 ["l"] "P" "B" [] c10Card).2 rfl⟩

/-- C1: a scanned card contributes exactly one appended entry to the report
if and only if the spec's due-relevance predicate holds: `listId` present and
among the board's valid list ids, `dueDate` present, effective
`isDueDateCompleted` false, and the local calendar date inside the inclusive
window.  (The card's `name` and `id` keys and the comment fetch are assumed
to succeed, which is the claim's setting; their failure is claim C8's.) -/
theorem due_card_inclusion (env : PlankaEnv) (token : Option String) (sd ed : Int)
    (validListIds : List String) (pname bname : String) (result : Report)
    (card : CardObj) (nm cid cmt : String)
    (hname : card.name = some nm) (hid : card.id = some cid)
    (hcmt : get_last_comment env token cid = .ok cmt) :
    (dueRelevantSpec validListIds env.tzOffsetMin sd ed card = true →
      processCard env token sd ed validListIds pname bname result card =
        .ok (appendEntry result pname bname
          (shortCardName nm, formatDueDate (card.dueDate.getD 0 + env.tzOffsetMin), cmt)) ∧
      appendEntry result pname bname
        (shortCardName nm, formatDueDate (card.dueDate.getD 0 + env.tzOffsetMin), cmt) ≠
        result) ∧
    (dueRelevantSpec validListIds env.tzOffsetMin sd ed card = false →
      processCard env token sd ed validListIds pname bname result card = .ok result) := by
  rcases hL : card.listId with _ | lid
  · refine ⟨fun h => ?_, fun _ => by simp [processCard, hL]⟩
    simp [dueRelevantSpec, hL] at h
  by_cases hmem : lid ∈ validListIds
  · rcases hD : card.dueDate with _ | due
    · refine ⟨fun h => ?_, fun _ => by simp [processCard, hL, hD, hmem]⟩
      simp [dueRelevantSpec, hL, hD] at h
    cases hC : card.isDueDateCompleted.getD false with
    | true =>
      refine ⟨fun h => ?_, fun _ => by simp [processCard, hL, hD, hmem, hC]⟩
      simp [dueRelevantSpec, hL, hD, hC] at h
    | false =>
      by_cases hR : sd ≤ (due + env.tzOffsetMin).fdiv 1440 ∧
          (due + env.tzOffsetMin).fdiv 1440 ≤ ed
      · refine ⟨fun _ => ⟨?_, appendEntry_ne result pname bname _⟩, fun h => ?_⟩
        · simp [processCard, hL, hD, hmem, hC, hR, hname, hid, hcmt]
        · simp [dueRelevantSpec, hL, hD, hmem, hC, hR] at h
      · refine ⟨fun h => ?_, fun _ => by simp [processCard, hL, hD, hmem, hC, hR]⟩
        simp [dueRelevantSpec, hL, hD, hmem, hC, hR] at h
  · refine ⟨fun h => ?_, fun _ => by simp [processCard, hL, hmem]⟩
    simp [dueRelevantSpec, hL, hmem] at h

def env1 : PlankaEnv :=
  { tzOffsetMin := 0, boardIds := [], tokenResp := .transportError,
    projectsResp := fun _ => .transportError,
    projectResp := fun _ _ => .transportError,
    boardResp := fun _ _ => .transportError,
    actionsResp := fun _ _ => .transportError }

def c1Card : CardObj :=
  { id := some "c1", name := some "task", listId := some "l1", dueDate := some 720,
    isDueDateCompleted := some false }

theorem due_card_inclusion_witness :
    processCard env1 none 0 10 ["l1"] "P" "B" [] c1Card =
      .ok (appendEntry [] "P" "B"
        (shortCardName "task", formatDueDate (c1Card.dueDate.getD 0 + env1.tzOffsetMin), "")) ∧
    appendEntry [] "P" "B"
      (shortCardName "task", formatDueDate (c1Card.dueDate.getD 0 + env1.tzOffsetMin), "") ≠
      [] :=
  (due_card_inclusion env1 none 0 10 ["l1"] "P" "B" [] c1Card "task" "c1" ""
    rfl rfl rfl).1 (by decide)

/-- C8: a missing expected key in an API response makes the whole
`get_due_cards` call fail with the propagated `KeyError` — nothing is caught
locally, and since the loops return `.error` immediately, no report (not even
the partial `result` built so far, which the second conjunct quantifies over)
reaches the caller.  Conjuncts cover: the `items` key of the projects
response; abortion of the project loop; a project without `name`; a project
without `id`; a project detail without `boards`; a board detail without
`included`; one without `lists`; one without `cards`; and a filtered card
without `name`. -/
theorem malformed_response_propagates (env : PlankaEnv) (token : Option String)
    (sd ed : Int) :
    (∀ resp, env.projectsResp (bearerHeader token) = .ok resp → resp.items = none →
      get_due_cards env token sd ed = .error (.keyError "items")) ∧
    (∀ result p ps er, processProject env token sd ed result p = .error er →
      processProjects env token sd ed result (p :: ps) = .error er) ∧
    (∀ result p, p.name = none →
      processProject env token sd ed result p = .error (.keyError "name")) ∧
    (∀ result p pn, p.name = some pn → p.id = none →
      processProject env token sd ed result p = .error (.keyError "id")) ∧
    (∀ result p pn pid, p.name = some pn → p.id = some pid →
      env.projectResp (bearerHeader token) pid = .ok { included := some { boards := none } } →
      processProject env token sd ed result p = .error (.keyError "boards")) ∧
    (∀ pname result b bn bid, b.name = some bn → b.id = some bid →
      env.boardResp (bearerHeader token) bid = .ok { included := none } →
      processBoard env token sd ed pname result b = .error (.keyError "included")) ∧
    (∀ pname result b bn bid co, b.name = some bn → b.id = some bid →
      env.boardResp (bearerHeader token) bid =
        .ok { included := some { lists := none, cards := co } } →
      processBoard env token sd ed pname result b = .error (.keyError "lists")) ∧
    (∀ pname result b bn bid, b.name = some bn → b.id = some bid →
      env.boardResp (bearerHeader token) bid =
        .ok { included := some { lists := some [], cards := none } } →
      processBoard env token sd ed pname result b = .error (.keyError "cards")) ∧
    (∀ validListIds pname bname result card lid due, card.listId = some lid →
      lid ∈ validListIds → card.dueDate = some due →
      card.isDueDateCompleted.getD false = false →
      (sd ≤ (due + env.tzOffsetMin).fdiv 1440 ∧ (due + env.tzOffsetMin).fdiv 1440 ≤ ed) →
      card.name = none →
      processCard env token sd ed validListIds pname bname result card =
        .error (.keyError "name")) := by
  refine ⟨?_, ?_, ?_, ?_, ?_, ?_, ?_, ?_, ?_⟩
  · intro resp h hi
    simp [get_due_cards, h, hi]
  · intro result p ps er h
    unfold processProjects
    rw [h]
  · intro result p h
    simp [processProject, h]
  · intro result p pn h1 h2
    simp [processProject, h1, h2]
  · intro result p pn pid h1 h2 h3
    simp [processProject, h1, h2, h3]
  · intro pname result b bn bid h1 h2 h3
    simp [processBoard, h1, h2, h3]
  · intro pname result b bn bid co h1 h2 h3
    simp [processBoard, h1, h2, h3]
  · intro pname result b bn bid h1 h2 h3
    simp [processBoard, h1, h2, h3, listIds]
  · intro validListIds pname bname result card lid due h1 h2 h3 h4 h5 h6
    simp [processCard, h1, h2, h3, h4, h5, h6]

def env8 : PlankaEnv :=
  { tzOffsetMin := 0, boardIds := ["b1"], tokenResp := .transportError,
    projectsResp := fun _ => .ok { items := none },
    projectResp := fun _ _ => .ok { included := some { boards := none } },
    boardResp := fun _ _ => .ok { included := none },
    actionsResp := fun _ _ => .transportError }

def env8b : PlankaEnv :=
  { env8 with boardResp := fun _ _ => .ok { included := some { lists := none, cards := none } } }

def env8c : PlankaEnv :=
  { env8 with boardResp := fun _ _ => .ok { included := some { lists := some [], cards := none } } }

def proj8 : ProjectObj := { name := some "P", id := some "p1" }

def board8 : BoardObj := { name := some "B", id := some "b1" }

def card8 : CardObj :=
  { id := some "c", name := none, listId := some "l", dueDate := some 0,
    isDueDateCompleted := some false }

theorem malformed_response_propagates_witness :
    get_due_cards env8 none 0 0 = .error (.keyError "items") ∧
    processProjects env8 none 0 0 [] [proj8] = .error (.keyError "boards") ∧
    processProject env8 none 0 0 [] { name := none, id := none } =
      .error (.keyError "name") ∧
    processProject env8 none 0 0 [] { name := some "P", id := none } =
      .error (.keyError "id") ∧
    processProject env8 none 0 0 [] proj8 = .error (.keyError "boards") ∧
    processBoard env8 none 0 0 "P" [] board8 = .error (.keyError "included") ∧
    processBoard env8b none 0 0 "P" [] board8 = .error (.keyError "lists") ∧
    processBoard env8c none 0 0 "P" [] board8 = .error (.keyError "cards") ∧
    processCard env8 none 0 0 ["l"] "P" "B" [] card8 = .error (.keyError "name") :=
  have hproj : processProject env8 none 0 0 [] proj8 = .error (.keyError "boards") :=
    (malformed_response_propagates env8 none 0 0).2.2.2.2.1 [] proj8 "P" "p1"
      rfl rfl rfl
  ⟨(malformed_response_propagates env8 none 0 0).1 { items := none } rfl rfl,
   (malformed_response_propagates env8 none 0 0).2.1 [] proj8 [] (.keyError "boards") hproj,
   (malformed_response_propagates env8 none 0 0).2.2.1 [] { name := none, id := none } rfl,
   (malformed_response_propagates env8 none 0 0).2.2.2.1 [] { name := some "P", id := none }
     "P" rfl rfl,
   hproj,
   (malformed_response_propagates env8 none 0 0).2.2.2.2.2.1 "P" [] board8 "B" "b1"
     rfl rfl rfl,
   (malformed_response_propagates env8b none 0 0).2.2.2.2.2.2.1 "P" [] board8 "B" "b1"
     none rfl rfl rfl,
   (malformed_response_propagates env8c none 0 0).2.2.2.2.2.2.2.1 "P" [] board8 "B" "b1"
     rfl rfl rfl,
   (malformed_response_propagates env8 none 0 0).2.2.2.2.2.2.2.2 ["l"] "P" "B" [] card8
     "l" 0 rfl (by decide) rfl rfl (by decide) rfl⟩

/-- C9: every report `get_due_cards` returns successfully has no empty
groups — each project name maps to a non-empty board dictionary and each
board name to a non-empty entry list (the nested entries are only ever
created together with the entry being appended) — and consequently the
report is empty exactly when it contains no card tuple at all. -/
theorem report_no_empty_groups (env : PlankaEnv) (token : Option String) (sd ed : Int)
    (r : Report) (h : get_due_cards env token sd ed = .ok r) :
    reportWF r = true ∧ (r = [] ↔ reportEntries r = []) :=
  ⟨get_due_cards_wf h, reportWF_empty_iff (get_due_cards_wf h)⟩

def card9 : CardObj :=
  { id := some "c1", name := some "task", listId := some "l1", dueDate := some 0,
    isDueDateCompleted := some false }

def boardInc9 : BoardIncluded :=
  { lists := some [{ id := some "l1" }], cards := some [card9] }

def env9 : PlankaEnv :=
  { tzOffsetMin := 0, boardIds := ["b1"], tokenResp := .transportError,
    projectsResp := fun _ => .ok { items := some [{ name := some "P", id := some "p1" }] },
    projectResp := fun _ _ =>
      .ok { included := some { boards := some [{ name := some "B", id := some "b1" }] } },
    boardResp := fun _ _ => .ok { included := some boardInc9 },
    actionsResp := fun _ _ => .transportError }

def report9 : Report := [("P", [("B", [("task", "01-01-1970 00:00", "")])])]

theorem report_no_empty_groups_witness :
    reportWF report9 = true ∧ (report9 = [] ↔ reportEntries report9 = []) :=
  report_no_empty_groups env9 none 0 0 report9 rfl
